import Mathlib

/-!
Verification of the `dsp-analyze` library: a shallow embedding of the
sine-sweep generator (`src/sweep_generator.rs`), the biquad IIR filters
(`tests/biquad.rs`) and the FFT analyzer (`src/bode.rs`), with theorems
settling the behavioural claims about them.

The machine `f32` arithmetic of the source is interpreted exactly:
every finite `f32` value is a rational number, so purely rational state
(frequencies, gains, phase bookkeeping) is embedded in `ℚ`, while sample
values (which involve `sin`) and filter arithmetic live in `ℝ`.
-/

set_option maxHeartbeats 1000000

noncomputable section

namespace DspAnalyze

/-! ## Sweep generator (`src/sweep_generator.rs`) -/

/-- Error variants of the sweep generator (`SweepError`). -/
inductive SweepError where
  /-- Sweep was not started. -/
  | NotStarted
  /-- Maximum frequency reached. -/
  | MaxFreqReached
deriving DecidableEq, Repr

/-- State of `SweepGenerator`.  All numeric fields of the source are `f32`;
finite `f32` values are rationals, and every operation the source performs on
them other than the two phase fields is rational arithmetic, so they are
embedded in `ℚ`.  The source's `phase` and `phase_inc` are always rational
multiples of `π` (they are built from `TAU * freq / sample_rate` and from
subtractions of `TAU`), so the fields `phase` and `phase_inc` here store the
coefficient of `π`: the source value of `self.phase` is `phase * π`. -/
structure SweepGenerator where
  /-- Sample rate in Hz. -/
  sample_rate : ℚ
  /-- Minimum frequency. -/
  min_freq : ℚ
  /-- Maximum frequency. -/
  max_freq : ℚ
  /-- Sweep time in seconds. -/
  sweep_time : ℚ
  /-- Gain. -/
  gain : ℚ
  /-- Current phase, as a coefficient of `π`. -/
  phase : ℚ
  /-- Phase increment, as a coefficient of `π`. -/
  phase_inc : ℚ
  /-- Current frequency. -/
  freq : ℚ
  /-- Frequency increment. -/
  freq_inc : ℚ
  /-- Started flag. -/
  started : Bool
deriving DecidableEq, Repr

namespace SweepGenerator

/-- `SweepGenerator::new`: min 20 Hz, max 20000 Hz, 1 s sweep, gain 1;
remaining fields from `Default` (zero / `false`). -/
def new (sample_rate : ℚ) : SweepGenerator where
  sample_rate := sample_rate
  min_freq := 20
  max_freq := 20000
  sweep_time := 1
  gain := 1
  phase := 0
  phase_inc := 0
  freq := 20
  freq_inc := (20000 - 20) / (sample_rate * 1)
  started := false

/-- `SweepGenerator::set_range`. -/
def set_range (s : SweepGenerator) (min_freq max_freq : ℚ) : SweepGenerator :=
  { s with
    min_freq := min_freq
    max_freq := max_freq
    freq_inc := (max_freq - min_freq) / (s.sample_rate * s.sweep_time) }

/-- `SweepGenerator::set_time`. -/
def set_time (s : SweepGenerator) (sweep_time : ℚ) : SweepGenerator :=
  { s with
    sweep_time := sweep_time
    freq_inc := (s.max_freq - s.min_freq) / (s.sample_rate * sweep_time) }

/-- `SweepGenerator::set_gain`. -/
def set_gain (s : SweepGenerator) (gain : ℚ) : SweepGenerator :=
  { s with gain := gain }

/-- `SweepGenerator::start`: resets the frequency to the minimum, recomputes
the phase increment (`TAU * freq / sample_rate`, i.e. coefficient
`2 * freq / sample_rate` of `π`) and sets the started flag.  The `phase`
field is NOT touched. -/
def start (s : SweepGenerator) : SweepGenerator :=
  { s with
    freq := s.min_freq
    phase_inc := 2 * s.min_freq / s.sample_rate
    started := true }

/-- The sample written for the current state: `self.phase.sin() * self.gain`. -/
def sampleValue (s : SweepGenerator) : ℝ :=
  Real.sin ((s.phase : ℝ) * Real.pi) * (s.gain : ℝ)

/-- The state updates performed after writing one sample in the loop body of
`SweepGenerator::process`: advance the phase by the phase increment, wrap it
once past `TAU` (in coefficient-of-`π` terms, past `2`; the comparison
`phase > TAU` is `phase * π > 2 * π`, equivalent to the coefficient
comparison since `π > 0`), advance the frequency, and recompute the phase
increment from the new frequency. -/
def advance (s : SweepGenerator) : SweepGenerator :=
  let p := s.phase + s.phase_inc
  let p := if 2 < p then p - 2 else p
  let f := s.freq + s.freq_inc
  { s with phase := p, freq := f, phase_inc := 2 * f / s.sample_rate }

/-- The `for` loop of `SweepGenerator::process` over the buffer: the result is
the final generator state, the final buffer contents (the source writes into
the caller's buffer in place, so un-written positions keep their old values)
and the error, if any. -/
def processLoop : SweepGenerator → List ℝ → SweepGenerator × List ℝ × Option SweepError
  | s, [] => (s, [], none)
  | s, x :: rest =>
    if s.max_freq < s.freq then
      ({ s with started := false }, x :: rest, some .MaxFreqReached)
    else
      let r := processLoop (advance s) rest
      (r.1, sampleValue s :: r.2.1, r.2.2)

/-- `SweepGenerator::process`: fails with `NotStarted` when the generator is
not started (leaving the buffer untouched), otherwise runs the sample loop. -/
def process (s : SweepGenerator) (buffer : List ℝ) :
    SweepGenerator × List ℝ × Option SweepError :=
  if s.started then processLoop s buffer else (s, buffer, some .NotStarted)

/-! ### The first index at which the frequency exceeds the maximum -/

/-- Index of the first `j < n` satisfying `p`, if any. -/
def firstHit : (ℕ → Bool) → ℕ → Option ℕ
  | _, 0 => none
  | p, n + 1 => if p 0 then some 0 else (firstHit (fun j => p (j + 1)) n).map (· + 1)

/-- The body of `process` once the generator is known to be started, phrased
the way the specification describes it: find the first sample position `k`
(if any) at which the current frequency `freq + k * freq_inc` exceeds the
maximum; on such a `k`, the first `k` buffer positions hold the generated
samples, the rest of the buffer is untouched, the state has advanced `k`
times and is deactivated, and the error is `MaxFreqReached`; otherwise the
whole buffer is filled and the result is `Ok`. -/
def specLoop (s : SweepGenerator) (buffer : List ℝ) :
    SweepGenerator × List ℝ × Option SweepError :=
  match firstHit (fun j => decide (s.max_freq < s.freq + (j : ℚ) * s.freq_inc))
      buffer.length with
  | some k =>
      ({ advance^[k] s with started := false },
       (List.range k).map (fun i => sampleValue (advance^[i] s)) ++ buffer.drop k,
       some .MaxFreqReached)
  | none =>
      (advance^[buffer.length] s,
       (List.range buffer.length).map (fun i => sampleValue (advance^[i] s)),
       none)

/-- The behaviour of `process` as described by the specification: `NotStarted`
with an untouched buffer when the generator is inactive, otherwise `specLoop`. -/
def processSpec (s : SweepGenerator) (buffer : List ℝ) :
    SweepGenerator × List ℝ × Option SweepError :=
  if s.started then specLoop s buffer else (s, buffer, some .NotStarted)

/-- Two generator states that agree on every field except `sweep_time`
(which `process` never reads).  Used to express that the sample stream
after `start()` is a function of the configuration, the frequency increment
and the current phase only. -/
def ObsEq (s t : SweepGenerator) : Prop :=
  s.sample_rate = t.sample_rate ∧ s.min_freq = t.min_freq ∧ s.max_freq = t.max_freq ∧
    s.gain = t.gain ∧ s.phase = t.phase ∧ s.phase_inc = t.phase_inc ∧ s.freq = t.freq ∧
    s.freq_inc = t.freq_inc ∧ s.started = t.started

/-- The sweep generator of the C2/C6 demonstrations: sample rate 4 Hz,
range 1..1.5 Hz, sweep time 1/8 s (frequency increment 1 per sample), started. -/
def sweepDemo : SweepGenerator :=
  (((SweepGenerator.new 4).set_range 1 (3 / 2)).set_time (1 / 8)).start

/-- The same configuration as `sweepDemo` but with gain set to `-1`. -/
def sweepDemoNeg : SweepGenerator :=
  ((((SweepGenerator.new 4).set_range 1 (3 / 2)).set_time (1 / 8)).set_gain (-1)).start

/-- A fresh 4 Hz generator with the fields that `start()` overwrites, and
`sweep_time`, perturbed; used to exhibit that they do not affect the stream. -/
def sweepAlt : SweepGenerator :=
  { SweepGenerator.new 4 with freq := 99, phase_inc := 7, started := true, sweep_time := 5 }

end SweepGenerator

/-! ## Biquad IIR filters (`tests/biquad.rs`) -/

/-- Filter parameters (`FilterParams`): a tagged variant over the thirteen
filter responses plus bypass, each carrying only the parameters it needs. -/
inductive FilterParams where
  /-- Bypass mode. -/
  | Bypass
  /-- Lowpass mode. -/
  | Lowpass (freq : ℝ) (q : ℝ)
  /-- Highpass mode. -/
  | Highpass (freq : ℝ) (q : ℝ)
  /-- Bandpass mode. -/
  | Bandpass (freq : ℝ) (q : ℝ)
  /-- Notch mode. -/
  | Notch (freq : ℝ) (q : ℝ)
  /-- Peak mode. -/
  | Peak (freq : ℝ) (q : ℝ) (gain : ℝ)
  /-- Low shelf mode. -/
  | LowShelf (freq : ℝ) (gain : ℝ)
  /-- High shelf mode. -/
  | HighShelf (freq : ℝ) (gain : ℝ)
  /-- Allpass mode. -/
  | Allpass (freq : ℝ) (q : ℝ)
  /-- One-pole lowpass mode. -/
  | Lowpass1p (freq : ℝ)
  /-- First order lowpass mode. -/
  | Lowpass1p1z (freq : ℝ)
  /-- First order highpass mode. -/
  | Highpass1p1z (freq : ℝ)
  /-- First order low shelf mode. -/
  | LowShelf1st (freq : ℝ) (gain : ℝ)
  /-- First order high shelf mode. -/
  | HighShelf1st (freq : ℝ) (gain : ℝ)

/-- Normalized filter coefficients (`BiquadFilterCoefficients`); the source
stores them as `f32`, interpreted here exactly in `ℝ`. -/
structure BiquadFilterCoefficients where
  /-- Coefficient a0 / b0. -/
  a0 : ℝ
  /-- Coefficient a1 / b0. -/
  a1 : ℝ
  /-- Coefficient a2 / b0. -/
  a2 : ℝ
  /-- Coefficient b1 / b0. -/
  b1 : ℝ
  /-- Coefficient b2 / b0. -/
  b2 : ℝ

namespace BiquadFilterCoefficients

/-- The `Default` coefficients of the source: `(1, 0, 0, 0, 0)`, a bypass. -/
def default : BiquadFilterCoefficients := ⟨1, 0, 0, 0, 0⟩

/-- `BiquadFilterCoefficients::from_params`: the coefficient formulas of the
source, one set per variant; `tan`, `exp`, `sqrt` and `powf` interpreted as
the exact real functions, `10.0.powf(x)` as the real power `10 ^ x`. -/
def from_params (params : FilterParams) (sample_time : ℝ) : BiquadFilterCoefficients :=
  match params with
  | .Bypass => default
  | .Lowpass freq q =>
    let k := Real.tan (Real.pi * freq * sample_time)
    let norm := 1 / (1 + k / q + k * k)
    let a0 := k * k * norm
    ⟨a0, 2 * a0, a0, 2 * (k * k - 1) * norm, (1 - k / q + k * k) * norm⟩
  | .Highpass freq q =>
    let k := Real.tan (Real.pi * freq * sample_time)
    let norm := 1 / (1 + k / q + k * k)
    let a0 := norm
    ⟨a0, -2 * a0, a0, 2 * (k * k - 1) * norm, (1 - k / q + k * k) * norm⟩
  | .Bandpass freq q =>
    let k := Real.tan (Real.pi * freq * sample_time)
    let norm := 1 / (1 + k / q + k * k)
    let a0 := k / q * norm
    ⟨a0, 0, -a0, 2 * (k * k - 1) * norm, (1 - k / q + k * k) * norm⟩
  | .Notch freq q =>
    let k := Real.tan (Real.pi * freq * sample_time)
    let norm := 1 / (1 + k / q + k * k)
    let a0 := (1 + k * k) * norm
    let a1 := 2 * (k * k - 1) * norm
    ⟨a0, a1, a0, a1, (1 - k / q + k * k) * norm⟩
  | .Peak freq q gain =>
    let k := Real.tan (Real.pi * freq * sample_time)
    let v := (10 : ℝ) ^ (|gain| / 20)
    if 0 ≤ gain then
      let norm := 1 / (1 + 1 / q * k + k * k)
      let a1 := 2 * (k * k - 1) * norm
      ⟨(1 + v / q * k + k * k) * norm, a1, (1 - v / q * k + k * k) * norm, a1,
        (1 - 1 / q * k + k * k) * norm⟩
    else
      let norm := 1 / (1 + v / q * k + k * k)
      let a1 := 2 * (k * k - 1) * norm
      ⟨(1 + 1 / q * k + k * k) * norm, a1, (1 - 1 / q * k + k * k) * norm, a1,
        (1 - v / q * k + k * k) * norm⟩
  | .LowShelf freq gain =>
    let k := Real.tan (Real.pi * freq * sample_time)
    let v := (10 : ℝ) ^ (|gain| / 20)
    if 0 ≤ gain then
      let norm := 1 / (1 + Real.sqrt 2 * k + k * k)
      ⟨(1 + Real.sqrt (2 * v) * k + v * k * k) * norm, 2 * (v * k * k - 1) * norm,
        (1 - Real.sqrt (2 * v) * k + v * k * k) * norm, 2 * (k * k - 1) * norm,
        (1 - Real.sqrt 2 * k + k * k) * norm⟩
    else
      let norm := 1 / (1 + Real.sqrt (2 * v) * k + v * k * k)
      ⟨(1 + Real.sqrt 2 * k + k * k) * norm, 2 * (k * k - 1) * norm,
        (1 - Real.sqrt 2 * k + k * k) * norm, 2 * (v * k * k - 1) * norm,
        (1 - Real.sqrt (2 * v) * k + v * k * k) * norm⟩
  | .HighShelf freq gain =>
    let k := Real.tan (Real.pi * freq * sample_time)
    let v := (10 : ℝ) ^ (|gain| / 20)
    if 0 ≤ gain then
      let norm := 1 / (1 + Real.sqrt 2 * k + k * k)
      ⟨(v + Real.sqrt (2 * v) * k + k * k) * norm, 2 * (k * k - v) * norm,
        (v - Real.sqrt (2 * v) * k + k * k) * norm, 2 * (k * k - 1) * norm,
        (1 - Real.sqrt 2 * k + k * k) * norm⟩
    else
      let norm := 1 / (v + Real.sqrt (2 * v) * k + k * k)
      ⟨(1 + Real.sqrt 2 * k + k * k) * norm, 2 * (k * k - 1) * norm,
        (1 - Real.sqrt 2 * k + k * k) * norm, 2 * (k * k - v) * norm,
        (v - Real.sqrt (2 * v) * k + k * k) * norm⟩
  | .Allpass freq q =>
    let k := Real.tan (Real.pi * freq * sample_time)
    let div_q := 1 / q
    let norm := 1 / (1 + k * div_q + k * k)
    let a0 := (1 - k * div_q + k * k) * norm
    let a1 := 2 * (k * k - 1) * norm
    ⟨a0, a1, 1, a1, a0⟩
  | .Lowpass1p freq =>
    let b1 := Real.exp (-2 * Real.pi * freq * sample_time)
    ⟨1 - b1, 0, 0, -b1, 0⟩
  | .Lowpass1p1z freq =>
    let k := Real.tan (Real.pi * freq * sample_time)
    let norm := 1 / (1 / k + 1)
    ⟨norm, norm, 0, (1 - 1 / k) * norm, 0⟩
  | .Highpass1p1z freq =>
    let k := Real.tan (Real.pi * freq * sample_time)
    let norm := 1 / (k + 1)
    ⟨norm, -norm, 0, (k - 1) * norm, 0⟩
  | .LowShelf1st freq gain =>
    let k := Real.tan (Real.pi * freq * sample_time)
    let v := (10 : ℝ) ^ (|gain| / 20)
    if 0 ≤ gain then
      let norm := 1 / (k + 1)
      ⟨(k * v + 1) * norm, (k * v - 1) * norm, 0, (k - 1) * norm, 0⟩
    else
      let norm := 1 / (k * v + 1)
      ⟨(k + 1) * norm, (k - 1) * norm, 0, (k * v - 1) * norm, 0⟩
  | .HighShelf1st freq gain =>
    let k := Real.tan (Real.pi * freq * sample_time)
    let v := (10 : ℝ) ^ (|gain| / 20)
    if 0 ≤ gain then
      let norm := 1 / (k + 1)
      ⟨(k + v) * norm, (k - v) * norm, 0, (k - 1) * norm, 0⟩
    else
      let norm := 1 / (k + v)
      ⟨(k + 1) * norm, (k - 1) * norm, 0, (k - v) * norm, 0⟩

end BiquadFilterCoefficients

/-- Biquad IIR filter in direct form 1 (`BiquadFilter1`): the two-element
arrays `in_states` and `out_states` of the source are embedded as the fields
`in_state0`/`in_state1` (for `in_states[0]`/`in_states[1]`) and
`out_state0`/`out_state1`. -/
structure BiquadFilter1 where
  /-- Time per sample, `1.0 / sample_rate`. -/
  sample_time : ℝ
  /-- Coefficients. -/
  coeffs : BiquadFilterCoefficients
  /-- Input sample memory `in_states[0]`. -/
  in_state0 : ℝ
  /-- Input sample memory `in_states[1]`. -/
  in_state1 : ℝ
  /-- Output sample memory `out_states[0]`. -/
  out_state0 : ℝ
  /-- Output sample memory `out_states[1]`. -/
  out_state1 : ℝ

namespace BiquadFilter1

/-- `BiquadFilter1::new`: default coefficients, zero state. -/
def new (sample_rate : ℝ) : BiquadFilter1 :=
  ⟨1 / sample_rate, BiquadFilterCoefficients.default, 0, 0, 0, 0⟩

/-- `BiquadFilter1::set_params`. -/
def set_params (f : BiquadFilter1) (params : FilterParams) : BiquadFilter1 :=
  { f with coeffs := BiquadFilterCoefficients.from_params params f.sample_time }

/-- `BiquadFilter1::reset`: sets the parameters to bypass mode.  Note that it
does nothing besides replacing the coefficients. -/
def reset (f : BiquadFilter1) : BiquadFilter1 :=
  f.set_params .Bypass

/-- `BiquadFilter1::set_coefficients`. -/
def set_coefficients (f : BiquadFilter1) (coeffs : BiquadFilterCoefficients) :
    BiquadFilter1 :=
  { f with coeffs := coeffs }

/-- `BiquadFilter1::process_sample`: returns the output sample and the
mutated filter. -/
def process_sample (f : BiquadFilter1) (sample : ℝ) : ℝ × BiquadFilter1 :=
  let out_sample := f.coeffs.a0 * sample + f.coeffs.a1 * f.in_state0 +
    f.coeffs.a2 * f.in_state1 - f.coeffs.b1 * f.out_state0 - f.coeffs.b2 * f.out_state1
  (out_sample,
   { f with
      in_state1 := f.in_state0
      in_state0 := sample
      out_state1 := f.out_state0
      out_state0 := out_sample })

/-- `BiquadFilter1::process_block`: processes the samples in order, returning
the transformed block (the source mutates the slice in place) and the final
filter state. -/
def process_block (f : BiquadFilter1) : List ℝ → List ℝ × BiquadFilter1
  | [] => ([], f)
  | x :: xs =>
    let r := f.process_sample x
    let rest := r.2.process_block xs
    (r.1 :: rest.1, rest.2)

end BiquadFilter1

/-- Biquad IIR filter in transposed direct form 2 (`BiquadFilter2`): the
two-element array `states` is embedded as `state0`/`state1`. -/
structure BiquadFilter2 where
  /-- Time per sample, `1.0 / sample_rate`. -/
  sample_time : ℝ
  /-- Coefficients. -/
  coeffs : BiquadFilterCoefficients
  /-- Sample memory `states[0]`. -/
  state0 : ℝ
  /-- Sample memory `states[1]`. -/
  state1 : ℝ

namespace BiquadFilter2

/-- `BiquadFilter2::new`: default coefficients, zero state. -/
def new (sample_rate : ℝ) : BiquadFilter2 :=
  ⟨1 / sample_rate, BiquadFilterCoefficients.default, 0, 0⟩

/-- `BiquadFilter2::set_params`. -/
def set_params (f : BiquadFilter2) (params : FilterParams) : BiquadFilter2 :=
  { f with coeffs := BiquadFilterCoefficients.from_params params f.sample_time }

/-- `BiquadFilter2::reset`: sets the parameters to bypass mode.  Note that it
does nothing besides replacing the coefficients. -/
def reset (f : BiquadFilter2) : BiquadFilter2 :=
  f.set_params .Bypass

/-- `BiquadFilter2::set_coefficients`. -/
def set_coefficients (f : BiquadFilter2) (coeffs : BiquadFilterCoefficients) :
    BiquadFilter2 :=
  { f with coeffs := coeffs }

/-- `BiquadFilter2::process_sample`: returns the output sample and the
mutated filter. -/
def process_sample (f : BiquadFilter2) (sample : ℝ) : ℝ × BiquadFilter2 :=
  let out_sample := f.state0 + f.coeffs.a0 * sample
  (out_sample,
   { f with
      state0 := f.state1 + f.coeffs.a1 * sample - f.coeffs.b1 * out_sample
      state1 := f.coeffs.a2 * sample - f.coeffs.b2 * out_sample })

/-- `BiquadFilter2::process_block`. -/
def process_block (f : BiquadFilter2) : List ℝ → List ℝ × BiquadFilter2
  | [] => ([], f)
  | x :: xs =>
    let r := f.process_sample x
    let rest := r.2.process_block xs
    (r.1 :: rest.1, rest.2)

end BiquadFilter2

/-! ## FFT analyzer (`src/bode.rs`) -/

/-- Model of the external `realfft` crate's forward real-to-complex
transform, per its documentation: for a real input of length `N` the output
vector has `N / 2 + 1` entries holding the unnormalized DFT bins
`X_k = Σ_{j<N} x_j · exp(-2πi·j·k/N)` for `k = 0, …, N/2`. -/
def rfft (indata : List ℝ) : List ℂ :=
  (List.range (indata.length / 2 + 1)).map fun (k : ℕ) =>
    ∑ j ∈ Finset.range indata.length,
      ((indata.getD j 0 : ℝ) : ℂ) *
        Complex.exp (-2 * Real.pi * Complex.I * (j : ℂ) * (k : ℂ) / (indata.length : ℂ))

/-- `fft` of the source: run the forward real FFT of the input, then scale
every bin by `1.0 / (spectrum.len() as f32).sqrt()` where `spectrum` is the
transform's output vector. -/
def fft (indata : List ℝ) : List ℂ :=
  let spectrum := rfft indata
  let scale : ℝ := 1 / Real.sqrt (spectrum.length)
  spectrum.map fun v => v * (scale : ℂ)

/-- The per-bin complex ratio of `FftAnalyzer::run`: the output spectrum
zipped with the input spectrum, divided pointwise (`v.0 / v.1`). -/
def spectrumQuotient (in_spectrum out_spectrum : List ℂ) : List ℂ :=
  (out_spectrum.zip in_spectrum).map fun v => v.1 / v.2

/-- The magnitude array published by `FftAnalyzer::run`:
`20.0 * f32::log10(v.norm())` per ratio bin. -/
def spectrumMagnitudeOf (in_spectrum out_spectrum : List ℂ) : List ℝ :=
  (spectrumQuotient in_spectrum out_spectrum).map fun v =>
    20 * Real.logb 10 (Complex.abs v)

/-- The phase array published by `FftAnalyzer::run`:
`v.arg() / PI * 180.0` per ratio bin. -/
def spectrumPhaseOf (in_spectrum out_spectrum : List ℂ) : List ℝ :=
  (spectrumQuotient in_spectrum out_spectrum).map fun v =>
    Complex.arg v / Real.pi * 180

/-- The collection loop of `sweep`: repeatedly `process` the 16-sample
buffer, extending the collected samples with the whole buffer on success and
stopping on the first error — so a batch during which the generator
signalled an error contributes nothing, its valid prefix is discarded.  The
source's unbounded `while` loop is modelled with explicit fuel. -/
def sweepLoop : ℕ → SweepGenerator → List ℝ → List ℝ
  | 0, _, _ => []
  | fuel + 1, s, buffer =>
    match SweepGenerator.process s buffer with
    | (s', buffer', none) => buffer' ++ sweepLoop fuel s' buffer'
    | (_, _, some _) => []

/-- `sweep` of the source: a generator at the given sample rate with range
1..20000 Hz and sweep time 1 s, started, collected in 16-sample batches. -/
def sweep (sample_rate : ℚ) (fuel : ℕ) : List ℝ :=
  sweepLoop fuel ((((SweepGenerator.new sample_rate).set_range 1 20000).set_time 1).start)
    (List.replicate 16 0)

/-- The chunk loop of `FftAnalyzer::run`: the input is visited in chunks of
`chunk_size`; each output chunk, pre-seeded with a copy of the corresponding
input chunk, is replaced by the closure's result.  `chunks(0)` would panic in
the source; the model returns the buffer unchanged in that case. -/
def applyChunks (func : List ℝ → List ℝ → List ℝ) (chunk_size : ℕ) (xs : List ℝ) :
    List ℝ :=
  if _h0 : chunk_size = 0 then xs
  else if hnil : xs = [] then []
  else
    func (xs.take chunk_size) (xs.take chunk_size) ++
      applyChunks func chunk_size (xs.drop chunk_size)
termination_by xs.length
decreasing_by
  simp only [List.length_drop]
  have h1 : 0 < xs.length := List.length_pos.mpr hnil
  omega

/-- Configuration for the analyzer (`FftAnalyzerConfig`). -/
structure FftAnalyzerConfig where
  /-- Sample rate in Hz. -/
  sample_rate : ℚ
  /-- Block size for each process call. -/
  block_size : ℕ

/-- The `Default` configuration of the source: 48 kHz, 64-sample blocks. -/
def FftAnalyzerConfig.default : FftAnalyzerConfig := ⟨48000, 64⟩

/-- FFT analyzer (`FftAnalyzer`). -/
structure FftAnalyzer where
  /-- Current configuration. -/
  config : FftAnalyzerConfig
  /-- Input samples. -/
  in_samples : List ℝ
  /-- Output samples. -/
  out_samples : List ℝ
  /-- Magnitude of the spectrum. -/
  spectrum_magnitude : List ℝ
  /-- Phase of the spectrum. -/
  spectrum_phase : List ℝ

/-- `FftAnalyzer::new`. -/
def FftAnalyzer.new (config : FftAnalyzerConfig) : FftAnalyzer :=
  ⟨config, [], [], [], []⟩

/-- `FftAnalyzer::run`: clear the previous run, generate the sweep, seed the
output with a copy of it, process it chunk by chunk through the closure, then
publish magnitude and phase of the per-bin ratio of the two spectra.  The
closure mutates its output slice in place in the source; it is modelled as a
function from the input chunk and the pre-seeded output chunk to the new
output chunk.  `fuel` bounds the source's unbounded sweep loop. -/
def FftAnalyzer.run (a : FftAnalyzer) (func : List ℝ → List ℝ → List ℝ) (fuel : ℕ) :
    FftAnalyzer :=
  let in_samples := sweep a.config.sample_rate fuel
  let out_samples := applyChunks func a.config.block_size in_samples
  let in_spectrum := fft in_samples
  let out_spectrum := fft out_samples
  { a with
    in_samples := in_samples
    out_samples := out_samples
    spectrum_magnitude := spectrumMagnitudeOf in_spectrum out_spectrum
    spectrum_phase := spectrumPhaseOf in_spectrum out_spectrum }

/-! ## Lemmas and theorems -/

namespace SweepGenerator

/-! ### Basic facts about `advance` -/

theorem advance_max_freq (s : SweepGenerator) : (advance s).max_freq = s.max_freq := rfl

theorem advance_freq_inc (s : SweepGenerator) : (advance s).freq_inc = s.freq_inc := rfl

theorem advance_freq (s : SweepGenerator) : (advance s).freq = s.freq + s.freq_inc := rfl

theorem advance_gain (s : SweepGenerator) : (advance s).gain = s.gain := rfl

theorem advance_started (s : SweepGenerator) : (advance s).started = s.started := rfl

theorem iterate_advance_max_freq (k : ℕ) (s : SweepGenerator) :
    (advance^[k] s).max_freq = s.max_freq := by
  induction k generalizing s with
  | zero => rfl
  | succ k ih => rw [Function.iterate_succ_apply, ih, advance_max_freq]

theorem iterate_advance_freq_inc (k : ℕ) (s : SweepGenerator) :
    (advance^[k] s).freq_inc = s.freq_inc := by
  induction k generalizing s with
  | zero => rfl
  | succ k ih => rw [Function.iterate_succ_apply, ih, advance_freq_inc]

/-- After `k` sample steps the current frequency is `freq + k * freq_inc`. -/
theorem iterate_advance_freq (k : ℕ) (s : SweepGenerator) :
    (advance^[k] s).freq = s.freq + (k : ℚ) * s.freq_inc := by
  induction k generalizing s with
  | zero => simp
  | succ k ih =>
    rw [Function.iterate_succ_apply, ih, advance_freq, advance_freq_inc]
    push_cast
    ring

theorem range_succ_map_sample (n : ℕ) (s : SweepGenerator) :
    (List.range (n + 1)).map (fun i => sampleValue (advance^[i] s)) =
      sampleValue s :: (List.range n).map (fun i => sampleValue (advance^[i] (advance s))) := by
  rw [List.range_succ_eq_map, List.map_cons, List.map_map]
  refine congrArg₂ _ rfl (List.map_congr_left fun i _ => ?_)
  simp [Function.comp, Function.iterate_succ_apply]

theorem processLoop_eq_specLoop (buffer : List ℝ) (s : SweepGenerator) :
    processLoop s buffer = specLoop s buffer := by
  induction buffer generalizing s with
  | nil => simp [processLoop, specLoop, firstHit]
  | cons x rest ih =>
    by_cases h : s.max_freq < s.freq
    · have hp0 : decide (s.max_freq < s.freq + ((0 : ℕ) : ℚ) * s.freq_inc) = true := by
        simpa using h
      simp only [processLoop, if_pos h, specLoop, List.length_cons, firstHit, hp0, if_pos]
      simp
    · have hp0 : decide (s.max_freq < s.freq + ((0 : ℕ) : ℚ) * s.freq_inc) = false := by
        simpa using h
      have hshift :
          (fun j : ℕ => decide (s.max_freq < s.freq + ((j + 1 : ℕ) : ℚ) * s.freq_inc)) =
            fun j : ℕ =>
              decide ((advance s).max_freq < (advance s).freq + (j : ℚ) * (advance s).freq_inc) := by
        funext j
        rw [advance_max_freq, advance_freq, advance_freq_inc]
        congr 1
        push_cast
        ring_nf
      have hloop : processLoop s (x :: rest) =
          ((processLoop (advance s) rest).1,
           sampleValue s :: (processLoop (advance s) rest).2.1,
           (processLoop (advance s) rest).2.2) := by
        simp [processLoop, h]
      rw [hloop, ih (advance s)]
      show _ = specLoop s (x :: rest)
      unfold specLoop
      simp only [List.length_cons, firstHit, hp0, Bool.false_eq_true, if_false, hshift]
      cases hfh :
          firstHit
            (fun j : ℕ =>
              decide ((advance s).max_freq < (advance s).freq + (j : ℚ) * (advance s).freq_inc))
            rest.length with
      | none =>
        simp only [Option.map_none']
        rw [range_succ_map_sample, Function.iterate_succ_apply]
      | some k =>
        simp only [Option.map_some']
        rw [range_succ_map_sample, Function.iterate_succ_apply, List.drop_succ_cons,
          List.cons_append]

/-- When the sample loop reports `MaxFreqReached` it has cleared the
`started` flag of the resulting state. -/
theorem processLoop_maxFreq_not_started (buffer : List ℝ) (s : SweepGenerator)
    (h : (processLoop s buffer).2.2 = some SweepError.MaxFreqReached) :
    (processLoop s buffer).1.started = false := by
  induction buffer generalizing s with
  | nil => simp [processLoop] at h
  | cons x rest ih =>
    by_cases hc : s.max_freq < s.freq
    · simp [processLoop, hc]
    · simp only [processLoop, if_neg hc] at h ⊢
      exact ih (advance s) h

/-- Every position of the buffer after the sample loop holds either its
original value or a freshly written sample bounded by the gain. -/
theorem processLoop_getD_bounds (buffer : List ℝ) (s : SweepGenerator) (j : ℕ)
    (hg : 0 ≤ s.gain) :
    (processLoop s buffer).2.1.getD j 0 = buffer.getD j 0 ∨
      (processLoop s buffer).2.1.getD j 0 ∈ Set.Icc (-(s.gain : ℝ)) (s.gain : ℝ) := by
  induction buffer generalizing s j with
  | nil => left; rfl
  | cons x rest ih =>
    by_cases hc : s.max_freq < s.freq
    · left
      simp [processLoop, hc]
    · cases j with
      | zero =>
        right
        have hg' : (0 : ℝ) ≤ (s.gain : ℝ) := by exact_mod_cast hg
        simp only [processLoop, if_neg hc, List.getD_cons_zero, Set.mem_Icc, sampleValue]
        constructor
        · have := mul_le_mul_of_nonneg_right (Real.neg_one_le_sin ((s.phase : ℝ) * Real.pi)) hg'
          linarith
        · have := mul_le_mul_of_nonneg_right (Real.sin_le_one ((s.phase : ℝ) * Real.pi)) hg'
          linarith
      | succ j =>
        have hrec := ih (advance s) j (by rw [advance_gain]; exact hg)
        rw [advance_gain] at hrec
        simpa only [processLoop, if_neg hc, List.getD_cons_succ] using hrec

theorem ObsEq.advanceCongr {s t : SweepGenerator} (h : ObsEq s t) :
    ObsEq (advance s) (advance t) := by
  obtain ⟨h1, h2, h3, h4, h5, h6, h7, h8, h9⟩ := h
  refine ⟨?_, ?_, ?_, ?_, ?_, ?_, ?_, ?_, ?_⟩ <;>
    simp [advance, h1, h2, h3, h4, h5, h6, h7, h8, h9]

theorem ObsEq.sampleValueCongr {s t : SweepGenerator} (h : ObsEq s t) :
    sampleValue s = sampleValue t := by
  obtain ⟨-, -, -, h4, h5, -⟩ := h
  simp [sampleValue, h4, h5]

/-- The sample loop produces identical buffers and errors on states that
agree on everything except `sweep_time`, and the resulting states again so
agree. -/
theorem processLoop_obsEq (buffer : List ℝ) (s t : SweepGenerator) (h : ObsEq s t) :
    (processLoop s buffer).2 = (processLoop t buffer).2 ∧
      ObsEq (processLoop s buffer).1 (processLoop t buffer).1 := by
  induction buffer generalizing s t with
  | nil => exact ⟨rfl, h⟩
  | cons x rest ih =>
    have hmax : s.max_freq = t.max_freq := h.2.2.1
    have hfreq : s.freq = t.freq := h.2.2.2.2.2.2.1
    by_cases hc : s.max_freq < s.freq
    · have hc' : t.max_freq < t.freq := by rw [← hmax, ← hfreq]; exact hc
      simp only [processLoop, if_pos hc, if_pos hc']
      obtain ⟨h1, h2, h3, h4, h5, h6, h7, h8, h9⟩ := h
      refine ⟨by trivial, ?_⟩
      exact ⟨h1, h2, h3, h4, h5, h6, h7, h8, rfl⟩
    · have hc' : ¬t.max_freq < t.freq := by rw [← hmax, ← hfreq]; exact hc
      have hrec := ih (advance s) (advance t) h.advanceCongr
      simp only [processLoop, if_neg hc, if_neg hc']
      exact ⟨by rw [h.sampleValueCongr, hrec.1], hrec.2⟩

end SweepGenerator

open SweepGenerator in
/-- C5: `process` returns `NotStarted` and writes nothing when the generator
is inactive; when active it returns `MaxFreqReached` at the first sample
position whose current frequency exceeds the configured maximum, having
written the generated samples to every earlier position, left the rest of the
buffer untouched and deactivated the generator; otherwise it fills the entire
buffer and returns `Ok` (`none`).  Formally, `process` coincides with
`processSpec`, the direct transcription of that description. -/
theorem process_meets_error_spec (s : SweepGenerator) (buffer : List ℝ) :
    process s buffer = processSpec s buffer := by
  unfold process processSpec
  by_cases h : s.started
  · simp only [if_pos h]
    exact processLoop_eq_specLoop buffer s
  · simp [h]

open SweepGenerator in
/-- C10: once `process` has returned `MaxFreqReached`, any subsequent call on
the resulting generator returns `NotStarted` and leaves the buffer and the
whole state (in particular the phase and the frequency) unchanged, until
`start` is called again. -/
theorem after_max_freq_reached_not_started (s : SweepGenerator) (buffer : List ℝ)
    (h : (process s buffer).2.2 = some SweepError.MaxFreqReached) (buffer2 : List ℝ) :
    process (process s buffer).1 buffer2 =
      ((process s buffer).1, buffer2, some SweepError.NotStarted) := by
  by_cases hs : s.started
  · have hpl : process s buffer = processLoop s buffer := by simp [process, hs]
    rw [hpl] at h ⊢
    have hns := processLoop_maxFreq_not_started buffer s h
    simp [process, hns]
  · have hne : process s buffer = (s, buffer, some SweepError.NotStarted) := by
      simp [process, hs]
    rw [hne] at h
    simp at h

open SweepGenerator in
/-- C10 witness: a started generator whose frequency (3) already exceeds its
maximum (2) signals `MaxFreqReached`; the follow-up call returns `NotStarted`
with buffer and state untouched. -/
theorem after_max_freq_reached_not_started_witness :
    (process ⟨4, 1, 2, 1, 1, 0, 0, 3, 1, true⟩ [0]).2.2 = some SweepError.MaxFreqReached ∧
      process (process ⟨4, 1, 2, 1, 1, 0, 0, 3, 1, true⟩ [0]).1 [5] =
        ((process ⟨4, 1, 2, 1, 1, 0, 0, 3, 1, true⟩ [0]).1, [5],
          some SweepError.NotStarted) :=
  ⟨by norm_num [SweepGenerator.process, SweepGenerator.processLoop],
   after_max_freq_reached_not_started _ _
     (by norm_num [SweepGenerator.process, SweepGenerator.processLoop]) _⟩

open SweepGenerator in
/-- C6 (amended): for a nonnegative configured gain, every buffer position
after a `process` call holds either its original value (the generator did not
write it) or a sample in the closed interval `[-gain, gain]`.  The claim's
unrestricted version is false for negative gains, see
`sample_outside_gain_interval_counterexample`. -/
theorem samples_within_gain_bounds (s : SweepGenerator) (buffer : List ℝ) (j : ℕ)
    (hg : 0 ≤ s.gain) :
    (process s buffer).2.1.getD j 0 = buffer.getD j 0 ∨
      (process s buffer).2.1.getD j 0 ∈ Set.Icc (-(s.gain : ℝ)) (s.gain : ℝ) := by
  unfold process
  by_cases hs : s.started
  · simp only [if_pos hs]
    exact processLoop_getD_bounds buffer s j hg
  · left
    simp [hs]

open SweepGenerator in
/-- C6 witness: a started unit-gain generator writes `sin(0) * 1 = 0` into the
first buffer position, which indeed lies in `[-1, 1]`. -/
theorem samples_within_gain_bounds_witness :
    0 ≤ (⟨4, 1, 2, 1, 1, 0, 0, 1, 1, true⟩ : SweepGenerator).gain ∧
      ((process ⟨4, 1, 2, 1, 1, 0, 0, 1, 1, true⟩ [37]).2.1.getD 0 0 =
          List.getD [37] 0 0 ∨
        (process ⟨4, 1, 2, 1, 1, 0, 0, 1, 1, true⟩ [37]).2.1.getD 0 0 ∈
          Set.Icc (-((⟨4, 1, 2, 1, 1, 0, 0, 1, 1, true⟩ : SweepGenerator).gain : ℝ))
            ((⟨4, 1, 2, 1, 1, 0, 0, 1, 1, true⟩ : SweepGenerator).gain : ℝ)) :=
  ⟨by norm_num, samples_within_gain_bounds _ _ 0 (by norm_num)⟩

open SweepGenerator in
/-- C6 counterexample: with the gain configured to `-1`, the generator writes
the sample `0` (namely `sin(0) * (-1)`) before the following call reports
`MaxFreqReached`, and `0` does not lie in `[-gain, gain] = [1, -1]`, which is
empty.  So the claim fails as stated for negative gains. -/
theorem sample_outside_gain_interval_counterexample :
    (process sweepDemoNeg [0]).2.2 = none ∧
      (process (process sweepDemoNeg [0]).1 [0]).2.2 = some SweepError.MaxFreqReached ∧
      (process sweepDemoNeg [0]).2.1.getD 0 37 ∉
        Set.Icc (-(sweepDemoNeg.gain : ℝ)) (sweepDemoNeg.gain : ℝ) := by
  have hdemo : sweepDemoNeg = ⟨4, 1, 3 / 2, 1 / 8, -1, 0, 1 / 2, 1, 1, true⟩ := by
    norm_num [sweepDemoNeg, SweepGenerator.new, set_range, set_time, set_gain, start]
  have hrun : process (⟨4, 1, 3 / 2, 1 / 8, -1, 0, 1 / 2, 1, 1, true⟩ : SweepGenerator) [0] =
      (⟨4, 1, 3 / 2, 1 / 8, -1, 1 / 2, 1, 2, 1, true⟩, [0], none) := by
    norm_num [SweepGenerator.process, SweepGenerator.processLoop, advance, sampleValue]
  rw [hdemo]
  simp only [hrun]
  refine ⟨by trivial, ?_, ?_⟩
  · norm_num [SweepGenerator.process, SweepGenerator.processLoop]
  · norm_num [Set.mem_Icc]

open SweepGenerator in
/-- C2 (amended): the sample sequence produced after `start()` depends only on
the sample rate, the frequency range, the gain, the frequency increment and
the current `phase` field — not on `sweep_time`, nor on the frequency,
phase-increment or started fields that `start` overwrites.  Hence a restart
reproduces the identical sequence exactly when the `phase` field, which
`start()` does not reset, has returned to its value at the first start; the
unrestricted claim is false, see `restart_not_identical_counterexample`. -/
theorem restart_deterministic_given_phase (s t : SweepGenerator) (buffer : List ℝ)
    (h1 : s.sample_rate = t.sample_rate) (h2 : s.min_freq = t.min_freq)
    (h3 : s.max_freq = t.max_freq) (h4 : s.gain = t.gain)
    (h5 : s.freq_inc = t.freq_inc) (h6 : s.phase = t.phase) :
    (process (start s) buffer).2 = (process (start t) buffer).2 ∧
      ObsEq (process (start s) buffer).1 (process (start t) buffer).1 := by
  have hobs : ObsEq (start s) (start t) := by
    refine ⟨h1, h2, h3, h4, h6, ?_, ?_, h5, rfl⟩ <;> simp [start, h1, h2]
  have hps : process (start s) buffer = processLoop (start s) buffer := by
    simp [process, start]
  have hpt : process (start t) buffer = processLoop (start t) buffer := by
    simp [process, start]
  rw [hps, hpt]
  exact processLoop_obsEq buffer _ _ hobs

open SweepGenerator in
/-- C2 witness: two generators over the same configuration that differ in the
fields `start()` overwrites (frequency, phase increment, started flag) and in
`sweep_time` produce the same buffer and error after `start`. -/
theorem restart_deterministic_given_phase_witness :
    ((SweepGenerator.new 4).sample_rate = sweepAlt.sample_rate ∧
      (SweepGenerator.new 4).phase = sweepAlt.phase) ∧
      (process (start (SweepGenerator.new 4)) [0]).2 =
        (process (start sweepAlt) [0]).2 :=
  ⟨⟨rfl, rfl⟩,
   (restart_deterministic_given_phase (SweepGenerator.new 4) sweepAlt [0]
      rfl rfl rfl rfl rfl rfl).1⟩

open SweepGenerator in
/-- C2 counterexample: running `sweepDemo` (rate 4, range 1..1.5, one sample
per sweep) to `MaxFreqReached` and then calling `start()` again produces a
different first buffer: the first pass writes `sin(0) = 0`, the second pass
starts from the leftover phase `π/2` and writes `sin(π/2) = 1`, because
`start()` does not reset the phase. -/
theorem restart_not_identical_counterexample :
    (process sweepDemo [0]).2.2 = none ∧
      (process (process sweepDemo [0]).1 [0]).2.2 = some SweepError.MaxFreqReached ∧
      (process (start (process (process sweepDemo [0]).1 [0]).1) [0]).2.1 ≠
        (process sweepDemo [0]).2.1 := by
  have hdemo : sweepDemo = ⟨4, 1, 3 / 2, 1 / 8, 1, 0, 1 / 2, 1, 1, true⟩ := by
    norm_num [sweepDemo, SweepGenerator.new, set_range, set_time, start]
  have hrun : process (⟨4, 1, 3 / 2, 1 / 8, 1, 0, 1 / 2, 1, 1, true⟩ : SweepGenerator) [0] =
      (⟨4, 1, 3 / 2, 1 / 8, 1, 1 / 2, 1, 2, 1, true⟩, [0], none) := by
    norm_num [SweepGenerator.process, SweepGenerator.processLoop, advance, sampleValue]
  have hrun2 : process (⟨4, 1, 3 / 2, 1 / 8, 1, 1 / 2, 1, 2, 1, true⟩ : SweepGenerator) [0] =
      (⟨4, 1, 3 / 2, 1 / 8, 1, 1 / 2, 1, 2, 1, false⟩, [0],
        some SweepError.MaxFreqReached) := by
    norm_num [SweepGenerator.process, SweepGenerator.processLoop]
  have hsin : Real.sin (1 / 2 * Real.pi) = 1 := by
    rw [show (1 / 2 : ℝ) * Real.pi = Real.pi / 2 by ring]
    exact Real.sin_pi_div_two
  have hrun3 :
      process (start (⟨4, 1, 3 / 2, 1 / 8, 1, 1 / 2, 1, 2, 1, false⟩ : SweepGenerator)) [0] =
        (⟨4, 1, 3 / 2, 1 / 8, 1, 1, 1, 2, 1, true⟩, [1], none) := by
    norm_num [SweepGenerator.process, SweepGenerator.processLoop, advance, sampleValue,
      start, hsin]
  rw [hdemo]
  simp only [hrun]
  refine ⟨by trivial, ?_, ?_⟩
  · simp only [hrun2]
  · simp only [hrun2, hrun3]
    norm_num

/-! ### Biquad filter theorems -/

/-- The direct-form state and the transposed-form state stay related by the
standard invariant: the transposed accumulators hold exactly the pending
contribution of the delayed inputs and outputs.  Under this relation (and
equal coefficients) both filters produce the same outputs. -/
theorem processBlock_forms_agree (xs : List ℝ) (c : BiquadFilterCoefficients)
    (f1 : BiquadFilter1) (f2 : BiquadFilter2)
    (hc1 : f1.coeffs = c) (hc2 : f2.coeffs = c)
    (hs0 : f2.state0 = c.a1 * f1.in_state0 + c.a2 * f1.in_state1 -
      c.b1 * f1.out_state0 - c.b2 * f1.out_state1)
    (hs1 : f2.state1 = c.a2 * f1.in_state0 - c.b2 * f1.out_state0) :
    (f1.process_block xs).1 = (f2.process_block xs).1 := by
  induction xs generalizing f1 f2 with
  | nil => rfl
  | cons x rest ih =>
    have hy : (f1.process_sample x).1 = (f2.process_sample x).1 := by
      simp only [BiquadFilter1.process_sample, BiquadFilter2.process_sample, hc1, hc2, hs0]
      ring
    simp only [BiquadFilter1.process_block, BiquadFilter2.process_block]
    refine congrArg₂ List.cons hy (ih _ _ ?_ ?_ ?_ ?_)
    · simp [BiquadFilter1.process_sample, hc1]
    · simp [BiquadFilter2.process_sample, hc2]
    · simp only [BiquadFilter1.process_sample, BiquadFilter2.process_sample,
        hc1, hc2, hs0, hs1]
      ring
    · simp only [BiquadFilter1.process_sample, BiquadFilter2.process_sample,
        hc1, hc2, hs0, hs1]
      ring

/-- C1: a direct-form filter (`BiquadFilter1`) and a transposed-form filter
(`BiquadFilter2`) carrying the same five normalized coefficients and all
state registers zero produce the same output sequence on every input
sequence, the arithmetic interpreted exactly (over `ℝ`). -/
theorem direct_and_transposed_forms_agree (sample_rate : ℝ)
    (c : BiquadFilterCoefficients) (xs : List ℝ) :
    (((BiquadFilter1.new sample_rate).set_coefficients c).process_block xs).1 =
      (((BiquadFilter2.new sample_rate).set_coefficients c).process_block xs).1 := by
  refine processBlock_forms_agree xs c _ _ rfl rfl ?_ ?_ <;>
    simp [BiquadFilter1.new, BiquadFilter2.new, BiquadFilter1.set_coefficients,
      BiquadFilter2.set_coefficients]

/-- A direct-form filter with the bypass coefficients is the identity on
samples from any state: every delayed term carries a zero coefficient. -/
theorem bypass1_identity (xs : List ℝ) (f : BiquadFilter1)
    (h : f.coeffs = BiquadFilterCoefficients.default) :
    (f.process_block xs).1 = xs := by
  induction xs generalizing f with
  | nil => rfl
  | cons x rest ih =>
    simp only [BiquadFilter1.process_block]
    refine congrArg₂ List.cons ?_ (ih _ (by simp [BiquadFilter1.process_sample, h]))
    simp [BiquadFilter1.process_sample, h, BiquadFilterCoefficients.default]

/-- A transposed-form filter with the bypass coefficients and zero
accumulators is the identity on samples, and its accumulators stay zero. -/
theorem bypass2_identity (xs : List ℝ) (f : BiquadFilter2)
    (h : f.coeffs = BiquadFilterCoefficients.default)
    (h0 : f.state0 = 0) (h1 : f.state1 = 0) :
    (f.process_block xs).1 = xs := by
  induction xs generalizing f with
  | nil => rfl
  | cons x rest ih =>
    simp only [BiquadFilter2.process_block]
    refine congrArg₂ List.cons ?_ (ih _ ?_ ?_ ?_)
    · simp [BiquadFilter2.process_sample, h, h0, BiquadFilterCoefficients.default]
    · simp [BiquadFilter2.process_sample, h]
    · simp [BiquadFilter2.process_sample, h, h1, BiquadFilterCoefficients.default]
    · simp [BiquadFilter2.process_sample, h, BiquadFilterCoefficients.default]

/-- C8: a filter of either realization set to the `Bypass` parameters and
started from the zero state returns every input sample unchanged (so
`process_sample x = x` at every state reachable from the zero state under
bypass processing), exactly. -/
theorem bypass_filter_is_identity (sample_rate : ℝ) (xs : List ℝ) :
    (((BiquadFilter1.new sample_rate).set_params .Bypass).process_block xs).1 = xs ∧
      (((BiquadFilter2.new sample_rate).set_params .Bypass).process_block xs).1 = xs :=
  ⟨bypass1_identity xs _ rfl, bypass2_identity xs _ rfl rfl rfl⟩

/-- C3 (amended): `reset()` replaces the coefficients by the bypass
coefficients but leaves every state register unchanged (it does not clear
them); see `reset_does_not_clear_state_counterexample` for the resulting
influence of pre-reset samples on post-reset outputs. -/
theorem reset_sets_bypass_and_keeps_state (f1 : BiquadFilter1) (f2 : BiquadFilter2) :
    f1.reset.coeffs = BiquadFilterCoefficients.default ∧
      f1.reset.in_state0 = f1.in_state0 ∧ f1.reset.in_state1 = f1.in_state1 ∧
      f1.reset.out_state0 = f1.out_state0 ∧ f1.reset.out_state1 = f1.out_state1 ∧
      f2.reset.coeffs = BiquadFilterCoefficients.default ∧
      f2.reset.state0 = f2.state0 ∧ f2.reset.state1 = f2.state1 :=
  ⟨rfl, rfl, rfl, rfl, rfl, rfl, rfl, rfl⟩

/-- C3 counterexample: a transposed-form filter that processed the sample `5`
with coefficients `(0,0,1,0,0)` holds `5` in a state register after
`reset()` — the registers are not cleared — and two post-reset
`process_sample 0` calls later that `5` emerges as an output, so a sample
processed before the reset influences an output produced after it. -/
theorem reset_does_not_clear_state_counterexample :
    ((((BiquadFilter2.new 1).set_coefficients ⟨0, 0, 1, 0, 0⟩).process_sample
        5).2.reset).state1 = 5 ∧
      (((((((BiquadFilter2.new 1).set_coefficients ⟨0, 0, 1, 0, 0⟩).process_sample
        5).2.reset).process_sample 0).2).process_sample 0).1 = 5 ∧
      (5 : ℝ) ≠ 0 := by
  norm_num [BiquadFilter2.new, BiquadFilter2.set_coefficients, BiquadFilter2.process_sample,
    BiquadFilter2.reset, BiquadFilter2.set_params, BiquadFilterCoefficients.from_params,
    BiquadFilterCoefficients.default]

/-! ### FFT analyzer theorems -/

theorem getD_map_mul_const (l : List ℂ) (c : ℂ) (k : ℕ) :
    (l.map fun v => v * c).getD k 0 = l.getD k 0 * c := by
  induction l generalizing k with
  | nil => simp
  | cons a t ih =>
    cases k with
    | zero => simp
    | succ k => simpa using ih k

theorem rfft_length (indata : List ℝ) : (rfft indata).length = indata.length / 2 + 1 := by
  simp only [rfft, List.length_map, List.length_range]

/-- C4 (amended): every bin of `fft` is the corresponding unnormalized DFT
bin multiplied by `1 / sqrt(B)` where `B = N / 2 + 1` is the number of
spectrum bins of an `N`-sample input — not `1 / sqrt(N)` as claimed, see
`fft_scale_not_inv_sqrt_input_len`. -/
theorem fft_scales_by_inv_sqrt_bin_count (indata : List ℝ) (k : ℕ) :
    (fft indata).getD k 0 =
      (rfft indata).getD k 0 *
        (((1 : ℝ) / Real.sqrt ((indata.length / 2 + 1 : ℕ)) : ℝ) : ℂ) := by
  simp only [fft, getD_map_mul_const, rfft_length]

/-- C4 counterexample: on the four-sample input `[1, 0, 0, 0]` the first
`fft` bin is `1 / sqrt 3` (three spectrum bins), not
`1 / sqrt 4` times the first DFT bin as the claim's `1 / sqrt N` scaling
would give. -/
theorem fft_scale_not_inv_sqrt_input_len :
    (fft [1, 0, 0, 0]).getD 0 0 ≠
      (((1 : ℝ) / Real.sqrt (([1, 0, 0, 0] : List ℝ).length) : ℝ) : ℂ) *
        (rfft [1, 0, 0, 0]).getD 0 0 := by
  have hbin : (rfft [1, 0, 0, 0]).getD 0 0 = 1 := by
    simp [rfft, List.range_succ, Finset.sum_range_succ]
  have hlen : (rfft [1, 0, 0, 0]).length = 3 := by
    rw [rfft_length]
    rfl
  have hfft : (fft [1, 0, 0, 0]).getD 0 0 = ((1 / Real.sqrt 3 : ℝ) : ℂ) := by
    simp only [fft, getD_map_mul_const, hlen, hbin, one_mul]
    norm_num
  intro hcontra
  rw [hfft, hbin, mul_one] at hcontra
  have hsqrt4 : Real.sqrt (([1, 0, 0, 0] : List ℝ).length) = 2 := by
    rw [show ((([1, 0, 0, 0] : List ℝ).length : ℝ)) = 2 ^ 2 by norm_num]
    exact Real.sqrt_sq (by norm_num)
  rw [hsqrt4] at hcontra
  have hr : (1 / Real.sqrt 3 : ℝ) = 1 / 2 := by exact_mod_cast hcontra
  have h3 : (0 : ℝ) < Real.sqrt 3 := Real.sqrt_pos.mpr (by norm_num)
  have hlt : Real.sqrt 3 < 2 := by
    nlinarith [Real.sq_sqrt (show (0 : ℝ) ≤ 3 by norm_num), Real.sqrt_nonneg 3]
  rw [div_eq_div_iff h3.ne' (by norm_num : (2 : ℝ) ≠ 0)] at hr
  nlinarith

theorem getD_zip_map (l1 l2 : List ℂ) (g : ℂ × ℂ → ℝ) (k : ℕ)
    (h1 : k < l1.length) (h2 : k < l2.length) :
    ((l1.zip l2).map g).getD k 0 = g (l1.getD k 0, l2.getD k 0) := by
  induction l1 generalizing l2 k with
  | nil => simp at h1
  | cons a t ih =>
    cases l2 with
    | nil => simp at h2
    | cons b u =>
      cases k with
      | zero => simp
      | succ k =>
        simp only [List.zip_cons_cons, List.map_cons, List.getD_cons_succ]
        exact ih u k (by simpa using h1) (by simpa using h2)

/-- C7: for every bin with a nonzero input-spectrum value, the published
magnitude is `20·log10` of the modulus of the complex ratio
`out_bin / in_bin`, the published phase is the argument of that ratio scaled
to degrees, and it lies in `(-180, 180]`; `FftAnalyzer.run` publishes exactly
these arrays for the two spectra of its captured signals. -/
theorem published_magnitude_phase_correct (in_spectrum out_spectrum : List ℂ) (k : ℕ)
    (h1 : k < out_spectrum.length) (h2 : k < in_spectrum.length)
    (hin : in_spectrum.getD k 0 ≠ 0) :
    (spectrumMagnitudeOf in_spectrum out_spectrum).getD k 0 =
      20 * Real.logb 10 (Complex.abs (out_spectrum.getD k 0 / in_spectrum.getD k 0)) ∧
      (spectrumPhaseOf in_spectrum out_spectrum).getD k 0 =
        (out_spectrum.getD k 0 / in_spectrum.getD k 0).arg / Real.pi * 180 ∧
      (spectrumPhaseOf in_spectrum out_spectrum).getD k 0 ∈ Set.Ioc (-180 : ℝ) 180 ∧
      ∀ (a : FftAnalyzer) (func : List ℝ → List ℝ → List ℝ) (fuel : ℕ),
        (a.run func fuel).spectrum_magnitude =
          spectrumMagnitudeOf (fft (a.run func fuel).in_samples)
            (fft (a.run func fuel).out_samples) ∧
        (a.run func fuel).spectrum_phase =
          spectrumPhaseOf (fft (a.run func fuel).in_samples)
            (fft (a.run func fuel).out_samples) := by
  have hmag : (spectrumMagnitudeOf in_spectrum out_spectrum).getD k 0 =
      20 * Real.logb 10 (Complex.abs (out_spectrum.getD k 0 / in_spectrum.getD k 0)) := by
    rw [spectrumMagnitudeOf, spectrumQuotient, List.map_map]
    exact getD_zip_map out_spectrum in_spectrum _ k h1 h2
  have hph : (spectrumPhaseOf in_spectrum out_spectrum).getD k 0 =
      (out_spectrum.getD k 0 / in_spectrum.getD k 0).arg / Real.pi * 180 := by
    rw [spectrumPhaseOf, spectrumQuotient, List.map_map]
    exact getD_zip_map out_spectrum in_spectrum _ k h1 h2
  refine ⟨hmag, hph, ?_, fun a func fuel => ⟨rfl, rfl⟩⟩
  rw [hph]
  have hpi := Real.pi_pos
  have harg1 := Complex.neg_pi_lt_arg (out_spectrum.getD k 0 / in_spectrum.getD k 0)
  have harg2 := Complex.arg_le_pi (out_spectrum.getD k 0 / in_spectrum.getD k 0)
  constructor
  · have hdiv : (-1 : ℝ) < (out_spectrum.getD k 0 / in_spectrum.getD k 0).arg / Real.pi := by
      rw [lt_div_iff₀ hpi]
      linarith
    linarith
  · have hdiv : (out_spectrum.getD k 0 / in_spectrum.getD k 0).arg / Real.pi ≤ 1 :=
      (div_le_one hpi).mpr harg2
    linarith

/-- C7 witness: with a one-bin input spectrum `[2]` and output spectrum
`[-2]`, the ratio is `-1`, whose phase in degrees is `180 ∈ (-180, 180]`. -/
theorem published_magnitude_phase_correct_witness :
    (([(2 : ℂ)] : List ℂ).getD 0 0 ≠ 0) ∧
      (spectrumPhaseOf [(2 : ℂ)] [(-2 : ℂ)]).getD 0 0 ∈ Set.Ioc (-180 : ℝ) 180 :=
  ⟨by norm_num,
   (published_magnitude_phase_correct [(2 : ℂ)] [(-2 : ℂ)] 0 (by norm_num) (by norm_num)
      (by norm_num)).2.2.1⟩

theorem process_length (s : SweepGenerator) (buffer : List ℝ) :
    (SweepGenerator.process s buffer).2.1.length = buffer.length := by
  have hloop : ∀ (b : List ℝ) (t : SweepGenerator),
      (SweepGenerator.processLoop t b).2.1.length = b.length := by
    intro b
    induction b with
    | nil => intro t; rfl
    | cons x rest ih =>
      intro t
      by_cases hc : t.max_freq < t.freq
      · simp [SweepGenerator.processLoop, hc]
      · simp [SweepGenerator.processLoop, hc, ih]
  unfold SweepGenerator.process
  by_cases hs : s.started
  · simp only [if_pos hs]
    exact hloop buffer s
  · simp [hs]

theorem sweepLoop_length_mod (fuel : ℕ) (s : SweepGenerator) (buffer : List ℝ)
    (h : buffer.length = 16) : (sweepLoop fuel s buffer).length % 16 = 0 := by
  induction fuel generalizing s buffer with
  | zero => rfl
  | succ fuel ih =>
    rcases hp : SweepGenerator.process s buffer with ⟨s', b', e⟩
    have hb' : b'.length = 16 := by
      have := process_length s buffer
      rw [hp] at this
      simpa [h] using this
    cases e with
    | none =>
      have heq : sweepLoop (fuel + 1) s buffer = b' ++ sweepLoop fuel s' b' := by
        simp [sweepLoop, hp]
      rw [heq, List.length_append, hb']
      have hrec := ih s' b' hb'
      omega
    | some err =>
      simp [sweepLoop, hp]

theorem applyChunks_length (func : List ℝ → List ℝ → List ℝ) (n : ℕ)
    (hf : ∀ a b, (func a b).length = b.length) (xs : List ℝ) :
    (applyChunks func n xs).length = xs.length := by
  have main : ∀ (m : ℕ) (ys : List ℝ), ys.length = m →
      (applyChunks func n ys).length = ys.length := by
    intro m
    induction m using Nat.strong_induction_on with
    | _ m ih =>
      intro ys hm
      rw [applyChunks]
      by_cases h0 : n = 0
      · simp [h0]
      · by_cases hnil : ys = []
        · simp [h0, hnil]
        · simp only [h0, dite_false, hnil, dite_eq_ite, if_false]
          rw [List.length_append, hf, List.length_take]
          have hlt : (ys.drop n).length < m := by
            rw [List.length_drop]
            have hpos : 0 < ys.length := List.length_pos.mpr hnil
            omega
          rw [ih (ys.drop n).length (hm ▸ hlt) (ys.drop n) rfl, List.length_drop]
          rcases le_total n ys.length with hle | hle
          · rw [min_eq_left hle]
            omega
          · rw [min_eq_right hle]
            omega
  exact main xs.length xs rfl

/-- C9: after every run of the analyzer the captured input length is an exact
multiple of 16 (the sweep batch size) — a batch in which the generator
signalled an error, in particular `MaxFreqReached` partway through, is
discarded rather than appended — and the output sample list has exactly the
same length as the input sample list. -/
theorem run_in_samples_multiple_of_16 (a : FftAnalyzer)
    (func : List ℝ → List ℝ → List ℝ) (fuel : ℕ)
    (hbs : 0 < a.config.block_size)
    (hf : ∀ xs ys, (func xs ys).length = ys.length) :
    (a.run func fuel).in_samples.length % 16 = 0 ∧
      (a.run func fuel).out_samples.length = (a.run func fuel).in_samples.length ∧
      ∀ (fuel2 : ℕ) (s : SweepGenerator) (buffer : List ℝ) (e : SweepError),
        (SweepGenerator.process s buffer).2.2 = some e →
        sweepLoop (fuel2 + 1) s buffer = [] := by
  refine ⟨?_, ?_, ?_⟩
  · show (sweep a.config.sample_rate fuel).length % 16 = 0
    exact sweepLoop_length_mod fuel _ _ (by simp)
  · show (applyChunks func a.config.block_size _).length = _
    exact applyChunks_length func _ hf _
  · intro fuel2 s buffer e he
    rcases hp : SweepGenerator.process s buffer with ⟨s', b', e'⟩
    rw [hp] at he
    simp only at he
    subst he
    simp [sweepLoop, hp]

/-- C9 witness: an analyzer at 48 kHz with 16-sample blocks and the identity
closure satisfies the hypotheses; its run has the two length properties. -/
theorem run_in_samples_multiple_of_16_witness :
    0 < (FftAnalyzer.new ⟨48000, 16⟩).config.block_size ∧
      ((FftAnalyzer.new ⟨48000, 16⟩).run (fun _ ys => ys) 0).in_samples.length % 16 = 0 :=
  ⟨by norm_num [FftAnalyzer.new],
   (run_in_samples_multiple_of_16 (FftAnalyzer.new ⟨48000, 16⟩) (fun _ ys => ys) 0
      (by norm_num [FftAnalyzer.new]) (fun _ _ => rfl)).1⟩

end DspAnalyze
